import Mathlib

/- Verification of the link-extraction, graph-construction and diagram-generation
logic of visualize_internal_links/main.py (repository python-seo-analysis).

The Python functions are shallowly embedded: XML element access is modelled by
Option-valued fields (none = child element absent; some t = element present
with text t, where t = none models a Python None text payload), Python dicts by
insertion-ordered association lists with overwrite-on-duplicate-key semantics,
and the re.findall call by an explicit left-to-right maximal-munch scanner for
the URL regular expression of line 40. -/

/- ### Configuration constants (main.py lines 7-9) -/

def DOMAIN : String := "helpedbyanerd.com"

/- ### Export reader (main.py lines 12-16) -/

/-- One parsed item element of the export document. Each field is none when
the child element is absent, and some t when the element is present with text
payload t (t = none models a Python None text). -/
structure Item where
  title : Option (Option String)
  content : Option (Option String)
  link : Option (Option String)
deriving DecidableEq

/-- main.py line 16: element.find(path, ns).text if element.find(path, ns)
is not None else default. -/
def get_text (field : Option (Option String)) (default : String) : Option String :=
  match field with
  | some t => t
  | none => some default

/- ### The URL regular expression of main.py line 40.

The pattern is http[s]?:// followed by one or more characters drawn from the
union of the classes [a-zA-Z], [0-9], [$-_@.&+], [!*\(\),] and the percent
escape alternative (?:%[0-9a-fA-F][0-9a-fA-F]).  Every character the percent
escape alternative can consume lies in the single-character classes as well
(the percent sign is inside the range $-_, hex digits are alphanumeric), and
nothing follows the plus in the pattern, so the greedy match at a position is
exactly: the scheme, then the maximal run of allowed characters, nonempty.
re.findall scans left to right and resumes after each match. -/

/-- The single-character class of the regex body, written class by class. -/
def isAllowedChar (c : Char) : Bool :=
  (('a' ≤ c && c ≤ 'z') || ('A' ≤ c && c ≤ 'Z'))
  || ('0' ≤ c && c ≤ '9')
  || (('$' ≤ c && c ≤ '_') || c == '@' || c == '.' || c == '&' || c == '+')
  || (c == '!' || c == '*' || c == '(' || c == ')' || c == ',')

def schemeHttps : List Char := "https://".toList

def schemeHttp : List Char := "http://".toList

/-- Attempt a regex match anchored at the start of cs: the scheme (the
optional s is greedy, and the two scheme branches are mutually exclusive on
any fixed input) followed by a nonempty maximal run of allowed characters.
Returns the matched text and the remainder of the input after the match. -/
def tryMatchAt (cs : List Char) : Option (List Char × List Char) :=
  if schemeHttps.isPrefixOf cs then
    let rest0 := cs.drop schemeHttps.length
    let body := rest0.takeWhile isAllowedChar
    if body.isEmpty then none
    else some (schemeHttps ++ body, rest0.dropWhile isAllowedChar)
  else if schemeHttp.isPrefixOf cs then
    let rest0 := cs.drop schemeHttp.length
    let body := rest0.takeWhile isAllowedChar
    if body.isEmpty then none
    else some (schemeHttp ++ body, rest0.dropWhile isAllowedChar)
  else none

/-- Left-to-right non-overlapping scan; fuel bounds the number of steps and
each step consumes at least one character, so input length is enough fuel. -/
def scanUrlsFuel : Nat → List Char → List String
  | 0, _ => []
  | _ + 1, [] => []
  | fuel + 1, c :: cs =>
    match tryMatchAt (c :: cs) with
    | some (m, rest) => String.mk m :: scanUrlsFuel fuel rest
    | none => scanUrlsFuel fuel cs

/-- main.py line 40: re.findall of the URL pattern over the content text. -/
def re_findall_urls (content : String) : List String :=
  scanUrlsFuel content.toList.length content.toList

/- ### Link filter (main.py lines 18-23 and 41) -/

/-- Python substring containment: needle in hay. -/
def pyContains (hay needle : String) : Bool := decide (needle.toList <:+: hay.toList)

/-- Python str.endswith. -/
def pyEndsWith (s ending : String) : Bool := decide (ending.toList <:+ s.toList)

def image_extensions : List String := [".jpg", ".jpeg", ".png", ".gif", ".webp", ".mp4"]

/-- main.py lines 18-23. -/
def is_internal_and_not_image (url : String) : Bool :=
  pyContains url DOMAIN && !(image_extensions.any fun ext => pyEndsWith url ext)

/-- main.py lines 40-41: the findall scan followed by the filtering list
comprehension (internal, not an image, and not an affiliate link). -/
def internal_urls_of (content : String) : List String :=
  (re_findall_urls content).filter fun url =>
    is_internal_and_not_image url && !(pyContains url "empfiehlt")

/- ### Python dicts as insertion-ordered association lists -/

/-- Python dict assignment d[k] = v: overwrite in place when the key is
already present (keeping its position), otherwise append at the end. -/
def dictInsert {α β : Type} [BEq α] (d : List (α × β)) (k : α) (v : β) : List (α × β) :=
  if d.any (fun p => p.1 == k) then
    d.map fun p => if p.1 == k then (k, v) else p
  else d ++ [(k, v)]

/-- Python dict lookup d.get(k) / d[k]: the value stored at the first (and,
for a dict, only) entry whose key equals k. -/
def dictGet {α β : Type} [BEq α] (k : α) : List (α × β) → Option β
  | [] => none
  | (a, b) :: d => if k == a then some b else dictGet k d

/- ### extract_content (main.py lines 26-46) -/

/-- Loop body of extract_content for one item (main.py lines 35-41).
The error case models the TypeError that re.findall raises when the content
element is present but its text payload is None. -/
def processItem (it : Item) :
    Except String (Option String × List String × Option String) :=
  let title := get_text it.title "No Title"
  match get_text it.content "" with
  | none => Except.error "TypeError: expected string or bytes-like object"
  | some content =>
    let link := get_text it.link "No Link"
    Except.ok (title, internal_urls_of content, link)

/-- main.py lines 30-46: loop over all items, threading the two dicts
articles_internal_links (title to extracted URL list) and articles
(canonical link to title). -/
def extract_content_aux :
    List Item → List (Option String × List String) → List (Option String × Option String) →
    Except String (List (Option String × List String) × List (Option String × Option String))
  | [], ail, arts => Except.ok (ail, arts)
  | it :: rest, ail, arts =>
    match processItem it with
    | Except.error e => Except.error e
    | Except.ok (title, urls, link) =>
      extract_content_aux rest (dictInsert ail title urls) (dictInsert arts link title)

/-- main.py extract_content applied to the item list of the document. -/
def extract_content (items : List Item) :
    Except String (List (Option String × List String) × List (Option String × Option String)) :=
  extract_content_aux items [] []

/- ### create_network_graph (main.py lines 48-58); the plotting tail of the
function (lines 60-64) only consumes the constructed graph and is out of
scope, so the embedding returns the graph G built by the loop. -/

/-- A networkx DiGraph restricted to what the program uses: nodes carry an
optional type attribute (none when a node was created without attributes),
edges are a duplicate-free list of ordered pairs. -/
structure NXDiGraph where
  nodes : List (String × Option String)
  edges : List (String × String)
deriving DecidableEq

/-- Membership test n in G of networkx. -/
def containsNode (G : NXDiGraph) (n : String) : Bool :=
  G.nodes.any fun p => p.1 == n

/-- networkx G.add_node(n, type=ty): update the attribute in place when the
node exists, otherwise append a fresh node. -/
def add_node (G : NXDiGraph) (n : String) (ty : String) : NXDiGraph :=
  if containsNode G n then
    { G with nodes := G.nodes.map fun p => if p.1 == n then (p.1, some ty) else p }
  else { G with nodes := G.nodes ++ [(n, some ty)] }

/-- networkx add_edge first ensures both endpoints exist (created without a
type attribute when absent). -/
def ensureNode (G : NXDiGraph) (n : String) : NXDiGraph :=
  if containsNode G n then G else { G with nodes := G.nodes ++ [(n, none)] }

/-- networkx G.add_edge(a, b): ensure endpoints, then add the edge unless the
ordered pair is already present (a DiGraph has no parallel edges). -/
def add_edge (G : NXDiGraph) (a b : String) : NXDiGraph :=
  let G1 := ensureNode (ensureNode G a) b
  if (a, b) ∈ G1.edges then G1 else { G1 with edges := G1.edges ++ [(a, b)] }

/-- Inner loop body of create_network_graph (main.py lines 55-58). -/
def processUrl (article : String) (G : NXDiGraph) (url : String) : NXDiGraph :=
  let G1 := if containsNode G url then G else add_node G url "url"
  add_edge G1 article url

/-- Outer loop body of create_network_graph (main.py lines 53-58). -/
def processArticle (G : NXDiGraph) (p : String × List String) : NXDiGraph :=
  p.2.foldl (processUrl p.1) (add_node G p.1 "article")

/-- main.py lines 52-58: the graph-construction part of create_network_graph. -/
def create_network_graph (data : List (String × List String)) : NXDiGraph :=
  data.foldl processArticle ⟨[], []⟩

/-- The final type attribute of node n, as an Option of an Option: none when
the node is absent, some a when present with attribute payload a. -/
def nodeType (G : NXDiGraph) (n : String) : Option (Option String) :=
  (G.nodes.find? fun p => p.1 == n).map Prod.snd

/- ### generate_mermaid_diagram (main.py lines 92-114) -/

/-- main.py line 104: article_ids as an association list in enumeration order
of the keys of internal_links; the id of the key at index i is "A" ++ repr i. -/
def article_ids (internal_links : List (String × List String)) : List (String × String) :=
  internal_links.enum.map fun p => (p.2.1, "A" ++ Nat.repr p.1)

/-- One emitted edge statement of line 112 (an f-string without braces:
built by plain concatenation). -/
def mermaidEdgeLine (source_id title target_id link_title : String) : String :=
  "  " ++ source_id ++ "[\"" ++ title ++ "\"] --> " ++ target_id ++ "[\"" ++ link_title ++ "\"];\n"

/-- main.py lines 103-114.  The getD "" on the source id is unreachable: the
title iterated over is a key of internal_links, so its lookup in article_ids
always succeeds (a Python dict lookup that cannot raise KeyError). -/
def generate_mermaid_diagram (internal_links : List (String × List String))
    (mapping : List (String × String)) : String :=
  let ids := article_ids internal_links
  internal_links.foldl (fun acc p =>
    let source_id := (dictGet p.1 ids).getD ""
    p.2.foldl (fun acc2 link =>
      let link_title := (dictGet link mapping).getD "Unknown Article"
      match dictGet link_title ids with
      | some target_id => acc2 ++ mermaidEdgeLine source_id p.1 target_id link_title
      | none => acc2) acc) "graph TD;\n"

/-- The resolution step of main.py line 109: mapping.get(link, "Unknown Article"). -/
def resolveLink (mapping : List (String × String)) (link : String) : String :=
  (dictGet link mapping).getD "Unknown Article"

/-- The (title, link) pairs for which line 112 emits an edge statement, in
emission order. -/
def mermaidEdges (internal_links : List (String × List String))
    (mapping : List (String × String)) : List (String × String) :=
  internal_links.flatMap fun p =>
    (p.2.filter fun link =>
      (dictGet (resolveLink mapping link) (article_ids internal_links)).isSome).map
      fun link => (p.1, link)

/-- The text that the emitted edge statement of a pair (title, link) carries. -/
def renderEdge (internal_links : List (String × List String))
    (mapping : List (String × String)) (e : String × String) : String :=
  mermaidEdgeLine ((dictGet e.1 (article_ids internal_links)).getD "") e.1
    ((dictGet (resolveLink mapping e.2) (article_ids internal_links)).getD "")
    (resolveLink mapping e.2)

/-- The sequence of titles written to the articles dict under canonical-link
key k, in document order (the last one wins in the final dict). -/
def link_writes (items : List Item) (k : Option String) : List (Option String) :=
  (items.filter fun it => get_text it.link "No Link" == k).map
    fun it => get_text it.title "No Title"

/-- The construction invariant: after the keys in K have been processed,
every present node carries the type attribute determined by membership in K,
every key of K is present, and the edge list has no duplicates. -/
def GraphInv (K : List String) (G : NXDiGraph) : Prop :=
  (∀ n, containsNode G n = true →
    nodeType G n = some (some (if n ∈ K then "article" else "url"))) ∧
  (∀ n ∈ K, containsNode G n = true) ∧
  G.edges.Nodup

def strConcat : List String → String
  | [] => ""
  | s :: l => s ++ strConcat l

/- ### Basic helpers for infix and prefix reasoning -/

lemma infix_intro {l₁ l₂ : List Char} (s t : List Char) (h : s ++ l₁ ++ t = l₂) :
    l₁ <:+: l₂ := ⟨s, t, h⟩

lemma infix_elim {l₁ l₂ : List Char} (h : l₁ <:+: l₂) : ∃ s t, s ++ l₁ ++ t = l₂ := h

lemma isPrefixOf_append_drop :
    ∀ (s cs : List Char), s.isPrefixOf cs = true → s ++ cs.drop s.length = cs := by
  intro s
  induction s with
  | nil => simp
  | cons a s ih =>
    intro cs h
    cases cs with
    | nil => simp [List.isPrefixOf] at h
    | cons c cs2 =>
      simp only [List.isPrefixOf, Bool.and_eq_true, beq_iff_eq] at h
      obtain ⟨rfl, h2⟩ := h
      simpa using ih cs2 h2

/- ### Structure of a single regex match -/

lemma tryMatchAt_eq {cs m rest : List Char} (h : tryMatchAt cs = some (m, rest)) :
    m ++ rest = cs ∧ m ≠ [] := by
  unfold tryMatchAt at h
  by_cases h1 : schemeHttps.isPrefixOf cs
  · simp only [h1, if_true] at h
    by_cases h2 : ((cs.drop schemeHttps.length).takeWhile isAllowedChar).isEmpty
    · simp [h2] at h
    · simp only [h2, if_false, Option.some.injEq, Prod.mk.injEq] at h
      obtain ⟨rfl, rfl⟩ := h
      constructor
      · rw [List.append_assoc, List.takeWhile_append_dropWhile]
        exact isPrefixOf_append_drop _ _ h1
      · simp [schemeHttps]
  · simp only [h1, if_false] at h
    by_cases h3 : schemeHttp.isPrefixOf cs
    · simp only [h3, if_true] at h
      by_cases h2 : ((cs.drop schemeHttp.length).takeWhile isAllowedChar).isEmpty
      · simp [h2] at h
      · simp only [h2, if_false, Option.some.injEq, Prod.mk.injEq] at h
        obtain ⟨rfl, rfl⟩ := h
        constructor
        · rw [List.append_assoc, List.takeWhile_append_dropWhile]
          exact isPrefixOf_append_drop _ _ h3
        · simp [schemeHttp]
    · simp [h3] at h

/- ### Every scanned URL is a contiguous substring of the input -/

lemma mem_scanUrlsFuel_infix :
    ∀ (fuel : Nat) (cs : List Char) (u : String),
      u ∈ scanUrlsFuel fuel cs → u.toList <:+: cs := by
  intro fuel
  induction fuel with
  | zero => intro cs u hu; simp [scanUrlsFuel] at hu
  | succ f ih =>
    intro cs u hu
    cases cs with
    | nil => simp [scanUrlsFuel] at hu
    | cons c cs2 =>
      rw [scanUrlsFuel] at hu
      cases htm : tryMatchAt (c :: cs2) with
      | none =>
        rw [htm] at hu
        obtain ⟨s, t, hst⟩ := infix_elim (ih cs2 u hu)
        exact infix_intro (c :: s) t (by simpa using hst)
      | some pair =>
        obtain ⟨m, rest⟩ := pair
        rw [htm] at hu
        obtain ⟨hcat, -⟩ := tryMatchAt_eq htm
        rcases List.mem_cons.mp hu with h | h
        · subst h
          exact infix_intro [] rest (by simpa [String.toList] using hcat)
        · obtain ⟨s, t, hst⟩ := infix_elim (ih rest u h)
          exact infix_intro (m ++ s) t (by rw [← hcat, ← hst]; simp)

/-- Claim C1: every link produced by the extraction step contains the
configured domain as a substring, ends with none of the media extensions,
does not contain the affiliate marker, and occurs as a contiguous substring
of the body text. -/
theorem extraction_pure_filter (content : String) :
    ∀ url ∈ internal_urls_of content,
      DOMAIN.toList <:+: url.toList ∧
      (∀ ext ∈ image_extensions, ¬ ext.toList <:+ url.toList) ∧
      ¬ "empfiehlt".toList <:+: url.toList ∧
      url.toList <:+: content.toList := by
  intro url hmem
  rw [internal_urls_of, List.mem_filter] at hmem
  obtain ⟨hscan, hpred⟩ := hmem
  rw [Bool.and_eq_true] at hpred
  obtain ⟨hint, haff⟩ := hpred
  rw [is_internal_and_not_image, Bool.and_eq_true] at hint
  obtain ⟨hdom, himg⟩ := hint
  refine ⟨?_, ?_, ?_, ?_⟩
  · simpa [pyContains, decide_eq_true_eq] using hdom
  · intro ext hext
    rw [Bool.not_eq_true', List.any_eq_false] at himg
    simpa [pyEndsWith, decide_eq_true_eq] using himg ext hext
  · rw [Bool.not_eq_true'] at haff
    simpa [pyContains, decide_eq_false_iff_not] using haff
  · exact mem_scanUrlsFuel_infix _ _ _ hscan

/-- Witness for C1 at a concrete body text and extracted link. -/
theorem extraction_pure_filter_witness :
    DOMAIN.toList <:+: "https://helpedbyanerd.com/post-a".toList ∧
    (∀ ext ∈ image_extensions, ¬ ext.toList <:+ "https://helpedbyanerd.com/post-a".toList) ∧
    ¬ "empfiehlt".toList <:+: "https://helpedbyanerd.com/post-a".toList ∧
    "https://helpedbyanerd.com/post-a".toList <:+:
      "See https://helpedbyanerd.com/post-a and https://helpedbyanerd.com/cat.jpg".toList :=
  extraction_pure_filter
    "See https://helpedbyanerd.com/post-a and https://helpedbyanerd.com/cat.jpg"
    "https://helpedbyanerd.com/post-a" (by decide)

/-- Claim C6: on the scenario body text, extraction yields exactly the
non-image link, the image URL being excluded. -/
theorem scenario_extract_links :
    internal_urls_of "See https://helpedbyanerd.com/post-a and https://helpedbyanerd.com/cat.jpg"
      = ["https://helpedbyanerd.com/post-a"] := by decide

/-- Claim C3: absent title, link and content elements resolve to the defaults
"No Title", "No Link" and the empty body; in the absent-content case the item
is processed without error and yields an empty link list. -/
theorem missing_elements_default (it : Item) :
    (it.title = none → get_text it.title "No Title" = some "No Title") ∧
    (it.link = none → get_text it.link "No Link" = some "No Link") ∧
    (it.content = none →
      get_text it.content "" = some "" ∧
      processItem it =
        Except.ok (get_text it.title "No Title", internal_urls_of "", get_text it.link "No Link") ∧
      internal_urls_of "" = []) := by
  refine ⟨?_, ?_, ?_⟩
  · intro h; rw [h]; rfl
  · intro h; rw [h]; rfl
  · intro h
    refine ⟨by rw [h]; rfl, ?_, by decide⟩
    rw [processItem, h]
    rfl

/-- Witness for C3 at the item with all three elements absent. -/
theorem missing_elements_default_witness :
    get_text (Item.mk none none none).title "No Title" = some "No Title" ∧
    get_text (Item.mk none none none).link "No Link" = some "No Link" ∧
    processItem (Item.mk none none none) =
      Except.ok (get_text (Item.mk none none none).title "No Title", internal_urls_of "",
        get_text (Item.mk none none none).link "No Link") :=
  ⟨(missing_elements_default (Item.mk none none none)).1 rfl,
   (missing_elements_default (Item.mk none none none)).2.1 rfl,
   ((missing_elements_default (Item.mk none none none)).2.2 rfl).2.1⟩

/-- Claim C8: a content element that is present with a None text payload makes
get_text return the None text rather than the empty-string default, and the
subsequent findall raises, so processing that item and any extraction run that
reaches it fail instead of yielding an empty link list. -/
theorem empty_content_element_raises (it : Item) (h : it.content = some none) :
    get_text it.content "" = none ∧
    processItem it = Except.error "TypeError: expected string or bytes-like object" ∧
    ∀ (rest : List Item) (ail : List (Option String × List String))
      (arts : List (Option String × Option String)),
      extract_content_aux (it :: rest) ail arts =
        Except.error "TypeError: expected string or bytes-like object" := by
  have h1 : get_text it.content "" = none := by rw [h]; rfl
  have h2 : processItem it = Except.error "TypeError: expected string or bytes-like object" := by
    rw [processItem, h1]
  exact ⟨h1, h2, fun rest ail arts => by rw [extract_content_aux, h2]⟩

/-- Witness for C8 at a concrete item whose content element is empty. -/
theorem empty_content_element_raises_witness :
    get_text (Item.mk none (some none) none).content "" = none ∧
    processItem (Item.mk none (some none) none) =
      Except.error "TypeError: expected string or bytes-like object" ∧
    extract_content [Item.mk none (some none) none] =
      Except.error "TypeError: expected string or bytes-like object" := by
  have h := empty_content_element_raises (Item.mk none (some none) none) rfl
  exact ⟨h.1, h.2.1, h.2.2 [] [] []⟩

/- ### Association-list lookup after dict-style insertion -/

lemma dictGet_isSome_iff {α β : Type} [BEq α] [LawfulBEq α] (d : List (α × β)) (k : α) :
    (dictGet k d).isSome = true ↔ k ∈ d.map Prod.fst := by
  induction d with
  | nil => simp [dictGet]
  | cons p d ih =>
    obtain ⟨a, b⟩ := p
    by_cases h : k = a
    · subst h; simp [dictGet]
    · simp [dictGet, beq_false_of_ne h, h, ih]

lemma dictGet_map_update {α β : Type} [BEq α] [LawfulBEq α]
    (d : List (α × β)) (k k0 : α) (v : β) :
    dictGet k0 (d.map fun p => if p.1 == k then (k, v) else p) =
      if k0 == k then (dictGet k d).map (fun _ => v) else dictGet k0 d := by
  induction d with
  | nil => by_cases h : k0 = k <;> simp [dictGet, h, beq_false_of_ne]
  | cons p d ih =>
    obtain ⟨a, b⟩ := p
    rw [List.map_cons]
    by_cases hak : a = k
    · subst hak
      have hcond : (((a, b).1 == a) = true) := beq_self_eq_true a
      rw [if_pos hcond]
      by_cases hk0 : k0 = a
      · subst hk0; simp [dictGet]
      · simp [dictGet, beq_false_of_ne hk0, ih]
    · have hcond : ¬ (((a, b).1 == k) = true) := by simp [hak]
      rw [if_neg hcond]
      by_cases hk0 : k0 = a
      · subst hk0
        simp [dictGet, beq_false_of_ne hak, beq_false_of_ne (Ne.symm hak)]
      · simp [dictGet, beq_false_of_ne hk0, beq_false_of_ne (Ne.symm hak), ih]

lemma dictGet_append_or {α β : Type} [BEq α] (d1 d2 : List (α × β)) (k : α) :
    dictGet k (d1 ++ d2) = (dictGet k d1).or (dictGet k d2) := by
  induction d1 with
  | nil => simp [dictGet]
  | cons p d ih =>
    obtain ⟨a, b⟩ := p
    cases h : k == a <;> simp [dictGet, h, ih]

lemma dictGet_dictInsert {α β : Type} [BEq α] [LawfulBEq α]
    (d : List (α × β)) (k k0 : α) (v : β) :
    dictGet k0 (dictInsert d k v) = if k0 == k then some v else dictGet k0 d := by
  rw [dictInsert]
  by_cases hmem : d.any (fun p => p.1 == k) = true
  · rw [if_pos hmem, dictGet_map_update]
    have hsome : (dictGet k d).isSome = true := by
      rw [dictGet_isSome_iff]
      obtain ⟨p, hp, hpk⟩ := List.any_eq_true.mp hmem
      exact List.mem_map.mpr ⟨p, hp, eq_of_beq hpk⟩
    by_cases hk0 : k0 = k
    · subst hk0
      obtain ⟨w, hw⟩ := Option.isSome_iff_exists.mp hsome
      simp [hw]
    · simp [beq_false_of_ne hk0]
  · rw [if_neg hmem, dictGet_append_or]
    have hnone : dictGet k d = none := by
      cases h : dictGet k d with
      | none => rfl
      | some w =>
        exfalso
        apply hmem
        rw [List.any_eq_true]
        have : k ∈ d.map Prod.fst := (dictGet_isSome_iff d k).mp (by rw [h]; rfl)
        obtain ⟨p, hp, hpk⟩ := List.mem_map.mp this
        exact ⟨p, hp, by simp [hpk]⟩
    by_cases hk0 : k0 = k
    · subst hk0; simp [hnone, dictGet]
    · simp [beq_false_of_ne hk0, dictGet]

lemma some_or_eq {α : Type} (a : α) (x : Option α) : (some a).or x = some a := rfl

lemma processItem_ok {it : Item} {t : Option String} {us : List String} {l : Option String}
    (h : processItem it = Except.ok (t, us, l)) :
    t = get_text it.title "No Title" ∧ l = get_text it.link "No Link" := by
  rw [processItem] at h
  cases hc : get_text it.content "" with
  | none => rw [hc] at h; simp at h
  | some content =>
    rw [hc] at h
    simp only [Except.ok.injEq, Prod.mk.injEq] at h
    exact ⟨h.1.symm, h.2.2.symm⟩

lemma extract_aux_arts_dictGet :
    ∀ (items : List Item) (ail : List (Option String × List String))
      (arts : List (Option String × Option String)) ail2 arts2,
      extract_content_aux items ail arts = Except.ok (ail2, arts2) →
      ∀ k, dictGet k arts2 = ((link_writes items k).reverse.head?).or (dictGet k arts) := by
  intro items
  induction items with
  | nil =>
    intro ail arts ail2 arts2 h k
    rw [extract_content_aux] at h
    simp only [Except.ok.injEq, Prod.mk.injEq] at h
    obtain ⟨-, rfl⟩ := h
    simp [link_writes]
  | cons it rest ih =>
    intro ail arts ail2 arts2 h k
    rw [extract_content_aux] at h
    cases hpi : processItem it with
    | error e => rw [hpi] at h; exact absurd h (by simp)
    | ok triple =>
      obtain ⟨title, urls, link⟩ := triple
      rw [hpi] at h
      obtain ⟨htitle, hlink⟩ := processItem_ok hpi
      have hrec := ih _ _ _ _ h k
      rw [hrec, dictGet_dictInsert]
      by_cases hcase : get_text it.link "No Link" = k
      · have hbeq : (get_text it.link "No Link" == k) = true := by simp [hcase]
        have hkl : (k == link) = true := by simp [hlink, hcase]
        simp [link_writes, List.filter_cons, hbeq, hkl, List.head?_append,
          Option.or_assoc, some_or_eq, ← htitle]
      · have hbeq : (get_text it.link "No Link" == k) = false := by
          simp [hcase]
        have hkl : (k == link) = false := by
          simp [hlink]
          exact fun hh => hcase hh.symm
        simp [link_writes, List.filter_cons, hbeq, hkl]

/-- Counterexample to claim C7 as stated: in the item sequence below the only
item whose link element is absent is the first, titled "A", yet the articles
dict maps the key "No Link" to "B", because the second item carries a present
link element whose text is literally "No Link" and overwrites the entry. -/
theorem no_link_last_write_counterexample :
    extract_content [Item.mk (some (some "A")) none none,
      Item.mk (some (some "B")) none (some (some "No Link"))] =
      Except.ok ([((some "A" : Option String), ([] : List String)), (some "B", [])],
        [((some "No Link" : Option String), (some "B" : Option String))]) ∧
    dictGet (some "No Link")
        [((some "No Link" : Option String), (some "B" : Option String))] =
      some (some "B") ∧
    ([Item.mk (some (some "A")) none none,
      Item.mk (some (some "B")) none (some (some "No Link"))].filter
        fun it => it.link == none).map (fun it => get_text it.title "No Title") =
      [some "A"] ∧
    (some (some "B") : Option (Option String)) ≠ some (some "A") := by
  refine ⟨rfl, ?_, ?_, ?_⟩ <;> decide

/-- Claim C7 (amended): when extraction succeeds and some item lacks a link
element, the articles dict entry for "No Link" is the title of the last item
in document order whose extracted link equals "No Link" — that is, whose link
element is absent or whose link element text is literally "No Link" — and
such an entry exists. -/
theorem no_link_last_write (items : List Item) (ail : List (Option String × List String))
    (arts : List (Option String × Option String))
    (hok : extract_content items = Except.ok (ail, arts))
    (habs : ∃ it ∈ items, it.link = none) :
    dictGet (some "No Link") arts = (link_writes items (some "No Link")).reverse.head? ∧
    (link_writes items (some "No Link")).reverse.head?.isSome = true := by
  have h1 := extract_aux_arts_dictGet items [] [] ail arts hok (some "No Link")
  constructor
  · rw [h1]
    simp [dictGet]
  · rw [List.head?_isSome]
    intro hnil
    rw [List.reverse_eq_nil_iff] at hnil
    obtain ⟨it, hit, hl⟩ := habs
    have hmemf : it ∈ items.filter fun it => get_text it.link "No Link" == some "No Link" := by
      rw [List.mem_filter]
      exact ⟨hit, by rw [hl]; rfl⟩
    have hmem : get_text it.title "No Title" ∈ link_writes items (some "No Link") :=
      List.mem_map.mpr ⟨it, hmemf, rfl⟩
    rw [hnil] at hmem
    exact absurd hmem (List.not_mem_nil _)

/-- Witness for the amended C7 at a one-item sequence lacking a link element. -/
theorem no_link_last_write_witness :
    dictGet (some "No Link")
        [((some "No Link" : Option String), (some "A" : Option String))] =
      (link_writes [Item.mk (some (some "A")) none none] (some "No Link")).reverse.head? ∧
    (link_writes [Item.mk (some (some "A")) none none]
        (some "No Link")).reverse.head?.isSome = true :=
  no_link_last_write [Item.mk (some (some "A")) none none]
    [(some "A", [])] [(some "No Link", some "A")] rfl (by decide)

/- ### Node and edge behaviour of the graph operations -/

lemma any_eq_find?_isSome {α : Type} (p : α → Bool) (l : List α) :
    l.any p = (l.find? p).isSome := by
  induction l with
  | nil => rfl
  | cons a l ih => cases h : p a <;> simp [List.any_cons, List.find?_cons, h, ih]

lemma containsNode_eq_isSome (G : NXDiGraph) (n : String) :
    containsNode G n = (nodeType G n).isSome := by
  rw [containsNode, nodeType, any_eq_find?_isSome]
  cases G.nodes.find? fun p => p.1 == n <;> rfl

lemma bool_eq_false_of_not {b : Bool} (h : ¬ b = true) : b = false := by
  cases hb : b
  · rfl
  · exact absurd hb h

lemma nodeType_add_node (G : NXDiGraph) (t ty n : String) :
    nodeType (add_node G t ty) n = if n = t then some (some ty) else nodeType G n := by
  rw [add_node]
  by_cases hc : containsNode G t = true
  · rw [if_pos hc]
    show ((G.nodes.map fun p => if p.1 == t then (p.1, some ty) else p).find?
      fun p => p.1 == n).map Prod.snd = _
    rw [List.find?_map]
    have hpred : ((fun p : String × Option String => p.1 == n) ∘
        fun p => if p.1 == t then (p.1, some ty) else p) =
        fun p : String × Option String => p.1 == n := by
      funext p
      simp [Function.comp, apply_ite Prod.fst, ite_self]
    rw [hpred, Option.map_map]
    by_cases hn : n = t
    · subst hn
      rw [if_pos rfl]
      have hs : (G.nodes.find? fun p => p.1 == n).isSome = true := by
        rw [← any_eq_find?_isSome]; exact hc
      obtain ⟨p, hp⟩ := Option.isSome_iff_exists.mp hs
      rw [hp]
      have hkey : (p.1 == n) = true :=
        @List.find?_some _ (fun q => q.1 == n) p G.nodes hp
      simp [Function.comp, eq_of_beq hkey]
    · rw [if_neg hn]
      cases hf : G.nodes.find? fun p => p.1 == n with
      | none => simp [nodeType, hf]
      | some p =>
        have hkey : (p.1 == n) = true :=
          @List.find?_some _ (fun q => q.1 == n) p G.nodes hf
        have hneq : (p.1 == t) = false := by
          rw [eq_of_beq hkey]; exact beq_false_of_ne hn
        simp [nodeType, hf, Function.comp, hneq, eq_of_beq hkey, hn]
  · rw [if_neg hc]
    show ((G.nodes ++ [(t, some ty)]).find? fun p => p.1 == n).map Prod.snd = _
    rw [List.find?_append]
    have hfalse : containsNode G t = false := bool_eq_false_of_not hc
    by_cases hn : n = t
    · subst hn
      rw [if_pos rfl]
      have hnone : (G.nodes.find? fun p => p.1 == n) = none := by
        cases ho : G.nodes.find? fun p => p.1 == n with
        | none => rfl
        | some p =>
          have : containsNode G n = true := by
            rw [containsNode, any_eq_find?_isSome, ho]; rfl
          rw [this] at hfalse
          exact absurd hfalse (by simp)
      rw [hnone, Option.none_or]
      simp [List.find?_cons]
    · rw [if_neg hn]
      have hsec : ([((t : String), some ty)].find? fun p => p.1 == n) = none := by
        simp [List.find?_cons, beq_false_of_ne (fun h => hn h.symm)]
      rw [hsec, Option.or_none]
      rfl

lemma edges_add_node (G : NXDiGraph) (t ty : String) :
    (add_node G t ty).edges = G.edges := by
  rw [add_node]; split <;> rfl

lemma containsNode_add_node (G : NXDiGraph) (t ty n : String) :
    containsNode (add_node G t ty) n = true ↔ containsNode G n = true ∨ n = t := by
  rw [containsNode_eq_isSome, nodeType_add_node, containsNode_eq_isSome]
  by_cases hn : n = t <;> simp [hn]

lemma ensureNode_of_contains {G : NXDiGraph} {x : String}
    (h : containsNode G x = true) : ensureNode G x = G := by
  rw [ensureNode, if_pos h]

lemma edges_ensureNode (G : NXDiGraph) (x : String) :
    (ensureNode G x).edges = G.edges := by
  rw [ensureNode]; split <;> rfl

lemma nodeType_ensureNode_of_present (G : NXDiGraph) (x n : String)
    (h : (nodeType G n).isSome = true) :
    nodeType (ensureNode G x) n = nodeType G n := by
  rw [ensureNode]
  by_cases hc : containsNode G x = true
  · rw [if_pos hc]
  · rw [if_neg hc]
    show ((G.nodes ++ [(x, (none : Option String))]).find? fun p => p.1 == n).map
      Prod.snd = _
    rw [List.find?_append]
    have hfind : (G.nodes.find? fun p => p.1 == n).isSome = true := by
      rw [nodeType] at h
      simpa using h
    obtain ⟨q, hq⟩ := Option.isSome_iff_exists.mp hfind
    rw [hq, some_or_eq, nodeType, hq]

lemma containsNode_ensureNode (G : NXDiGraph) (x n : String) :
    containsNode (ensureNode G x) n = true ↔ containsNode G n = true ∨ n = x := by
  rw [ensureNode]
  by_cases hc : containsNode G x = true
  · rw [if_pos hc]
    constructor
    · exact fun h => Or.inl h
    · rintro (h | rfl)
      · exact h
      · exact hc
  · rw [if_neg hc]
    show (G.nodes ++ [(x, none)]).any (fun p => p.1 == n) = true ↔ _
    rw [List.any_append]
    simp only [containsNode, List.any_cons, List.any_nil, Bool.or_false,
      Bool.or_eq_true, beq_iff_eq]
    constructor
    · rintro (h | h)
      · exact Or.inl h
      · exact Or.inr h.symm
    · rintro (h | h)
      · exact Or.inl h
      · exact Or.inr h.symm

lemma nodeType_add_edge_of_present (G : NXDiGraph) (a b n : String)
    (h : (nodeType G n).isSome = true) :
    nodeType (add_edge G a b) n = nodeType G n := by
  have h1 : nodeType (ensureNode G a) n = nodeType G n :=
    nodeType_ensureNode_of_present G a n h
  have h2 : nodeType (ensureNode (ensureNode G a) b) n = nodeType G n := by
    rw [nodeType_ensureNode_of_present _ b n (by rw [h1]; exact h), h1]
  simp only [add_edge]
  split
  · exact h2
  · exact h2

lemma edges_add_edge (G : NXDiGraph) (a b : String) :
    (add_edge G a b).edges =
      if (a, b) ∈ G.edges then G.edges else G.edges ++ [(a, b)] := by
  simp only [add_edge, apply_ite NXDiGraph.edges, edges_ensureNode]

lemma containsNode_add_edge (G : NXDiGraph) (a b n : String) :
    containsNode (add_edge G a b) n = true ↔
      containsNode G n = true ∨ n = a ∨ n = b := by
  have hiff : containsNode (ensureNode (ensureNode G a) b) n = true ↔
      (containsNode G n = true ∨ n = a) ∨ n = b := by
    rw [containsNode_ensureNode, containsNode_ensureNode]
  simp only [add_edge]
  split
  · rw [hiff]; tauto
  · show containsNode (ensureNode (ensureNode G a) b) n = true ↔ _
    rw [hiff]; tauto

lemma mem_edges_add_edge (G : NXDiGraph) (a b : String) (e : String × String) :
    e ∈ (add_edge G a b).edges ↔ e ∈ G.edges ∨ e = (a, b) := by
  rw [edges_add_edge]
  split
  · next hmem =>
    constructor
    · exact fun h => Or.inl h
    · rintro (h1 | rfl)
      · exact h1
      · exact hmem
  · simp [List.mem_append]

lemma edges_nodup_add_edge (G : NXDiGraph) (a b : String) (h : G.edges.Nodup) :
    (add_edge G a b).edges.Nodup := by
  rw [edges_add_edge]
  split
  · exact h
  · next hnot =>
    refine List.Nodup.append h (List.nodup_singleton _) ?_
    intro x hx hx2
    rw [List.mem_singleton] at hx2
    subst hx2
    exact hnot hx

lemma processUrl_facts (K : List String) (t u : String) (G : NXDiGraph)
    (ht : t ∈ K) (h : GraphInv K G) :
    GraphInv K (processUrl t G u) ∧
    containsNode (processUrl t G u) u = true ∧
    (t, u) ∈ (processUrl t G u).edges ∧
    (∀ e ∈ G.edges, e ∈ (processUrl t G u).edges) ∧
    (∀ n, containsNode G n = true → containsNode (processUrl t G u) n = true) := by
  obtain ⟨htype, hkeys, hnodup⟩ := h
  simp only [processUrl]
  set G1 := if containsNode G u then G else add_node G u "url" with hG1
  have hG1type : ∀ n, containsNode G1 n = true →
      nodeType G1 n = some (some (if n ∈ K then "article" else "url")) := by
    intro n hn
    rw [hG1] at hn ⊢
    by_cases hcu : containsNode G u = true
    · rw [if_pos hcu] at hn ⊢
      exact htype n hn
    · rw [if_neg hcu] at hn ⊢
      rcases (containsNode_add_node G u "url" n).mp hn with hg | rfl
      · rw [nodeType_add_node, if_neg]
        · exact htype n hg
        · rintro rfl
          rw [hg] at hcu
          exact hcu rfl
      · rw [nodeType_add_node, if_pos rfl]
        have hnk : n ∉ K := fun hk => hcu (hkeys n hk)
        rw [if_neg hnk]
  have hG1mono : ∀ n, containsNode G n = true → containsNode G1 n = true := by
    intro n hn
    rw [hG1]
    by_cases hcu : containsNode G u = true
    · rw [if_pos hcu]; exact hn
    · rw [if_neg hcu]
      exact (containsNode_add_node G u "url" n).mpr (Or.inl hn)
  have hG1u : containsNode G1 u = true := by
    rw [hG1]
    by_cases hcu : containsNode G u = true
    · rw [if_pos hcu]; exact hcu
    · rw [if_neg hcu]
      exact (containsNode_add_node G u "url" u).mpr (Or.inr rfl)
  have hG1t : containsNode G1 t = true := hG1mono t (hkeys t ht)
  have hG1edges : G1.edges = G.edges := by
    rw [hG1]
    by_cases hcu : containsNode G u = true
    · rw [if_pos hcu]
    · rw [if_neg hcu]; exact edges_add_node G u "url"
  have hens : ensureNode (ensureNode G1 t) u = G1 := by
    rw [ensureNode_of_contains hG1t, ensureNode_of_contains hG1u]
  have hnodes2 : (add_edge G1 t u).nodes = G1.nodes := by
    simp only [add_edge, hens]
    split <;> rfl
  have hcont2 : ∀ n, containsNode (add_edge G1 t u) n = containsNode G1 n := by
    intro n
    rw [containsNode, hnodes2]
    rfl
  have htype2 : ∀ n, nodeType (add_edge G1 t u) n = nodeType G1 n := by
    intro n
    rw [nodeType, hnodes2]
    rfl
  refine ⟨⟨?_, ?_, ?_⟩, ?_, ?_, ?_, ?_⟩
  · intro n hn
    rw [htype2]
    exact hG1type n (by rw [← hcont2]; exact hn)
  · intro n hk
    rw [hcont2]
    exact hG1mono n (hkeys n hk)
  · apply edges_nodup_add_edge
    rw [hG1edges]
    exact hnodup
  · rw [hcont2]
    exact hG1u
  · rw [mem_edges_add_edge]
    exact Or.inr rfl
  · intro e he
    rw [mem_edges_add_edge, hG1edges]
    exact Or.inl he
  · intro n hn
    rw [hcont2]
    exact hG1mono n hn

lemma foldl_processUrl_facts (K : List String) (t : String) (ht : t ∈ K) :
    ∀ (ls : List String) (G : NXDiGraph), GraphInv K G →
      GraphInv K (ls.foldl (processUrl t) G) ∧
      (∀ u ∈ ls, containsNode (ls.foldl (processUrl t) G) u = true ∧
        (t, u) ∈ (ls.foldl (processUrl t) G).edges) ∧
      (∀ e ∈ G.edges, e ∈ (ls.foldl (processUrl t) G).edges) ∧
      (∀ n, containsNode G n = true → containsNode (ls.foldl (processUrl t) G) n = true) := by
  intro ls
  induction ls with
  | nil =>
    intro G h
    simp only [List.foldl_nil]
    exact ⟨h, by simp, fun e he => he, fun n hn => hn⟩
  | cons u ls ih =>
    intro G h
    rw [List.foldl_cons]
    obtain ⟨h1, h2, h3, h4, h5⟩ := processUrl_facts K t u G ht h
    obtain ⟨ih1, ih2, ih3, ih4⟩ := ih (processUrl t G u) h1
    refine ⟨ih1, ?_, ?_, ?_⟩
    · intro v hv
      rcases List.mem_cons.mp hv with rfl | hv2
      · exact ⟨ih4 v h2, ih3 _ h3⟩
      · exact ih2 v hv2
    · exact fun e he => ih3 e (h4 e he)
    · exact fun n hn => ih4 n (h5 n hn)

lemma processArticle_facts (K : List String) (p : String × List String) (G : NXDiGraph)
    (h : GraphInv K G) :
    GraphInv (K ++ [p.1]) (processArticle G p) ∧
    (∀ u ∈ p.2, containsNode (processArticle G p) u = true ∧
      (p.1, u) ∈ (processArticle G p).edges) ∧
    (∀ e ∈ G.edges, e ∈ (processArticle G p).edges) ∧
    (∀ n, containsNode G n = true → containsNode (processArticle G p) n = true) := by
  obtain ⟨htype, hkeys, hnodup⟩ := h
  have hadd : GraphInv (K ++ [p.1]) (add_node G p.1 "article") := by
    refine ⟨?_, ?_, ?_⟩
    · intro n hn
      rcases (containsNode_add_node G p.1 "article" n).mp hn with hg | hnp
      · by_cases hnp : n = p.1
        · subst hnp
          rw [nodeType_add_node, if_pos rfl, if_pos (by simp)]
        · rw [nodeType_add_node, if_neg hnp, htype n hg]
          simp [List.mem_append, hnp]
      · subst hnp
        rw [nodeType_add_node, if_pos rfl, if_pos (by simp)]
    · intro n hk
      rcases List.mem_append.mp hk with hk1 | hk2
      · exact (containsNode_add_node _ _ _ n).mpr (Or.inl (hkeys n hk1))
      · rw [List.mem_singleton] at hk2
        exact (containsNode_add_node _ _ _ n).mpr (Or.inr hk2)
    · rw [edges_add_node]
      exact hnodup
  have htm : p.1 ∈ K ++ [p.1] := by simp
  obtain ⟨f1, f2, f3, f4⟩ :=
    foldl_processUrl_facts (K ++ [p.1]) p.1 htm p.2 (add_node G p.1 "article") hadd
  refine ⟨f1, f2, ?_, ?_⟩
  · intro e he
    apply f3
    rw [edges_add_node]
    exact he
  · intro n hn
    apply f4
    exact (containsNode_add_node _ _ _ n).mpr (Or.inl hn)

lemma foldl_processArticle_facts :
    ∀ (todo done : List (String × List String)) (G : NXDiGraph),
      GraphInv (done.map Prod.fst) G →
      (∀ q ∈ done, ∀ u ∈ q.2, containsNode G u = true ∧ (q.1, u) ∈ G.edges) →
      GraphInv ((done ++ todo).map Prod.fst) (todo.foldl processArticle G) ∧
      (∀ q ∈ done ++ todo, ∀ u ∈ q.2,
        containsNode (todo.foldl processArticle G) u = true ∧
        (q.1, u) ∈ (todo.foldl processArticle G).edges) := by
  intro todo
  induction todo with
  | nil =>
    intro done G h hed
    simp only [List.foldl_nil, List.append_nil]
    exact ⟨h, hed⟩
  | cons p todo ih =>
    intro done G h hed
    rw [List.foldl_cons]
    obtain ⟨s1, s2, s3, s4⟩ := processArticle_facts (done.map Prod.fst) p G h
    have hK : (done.map Prod.fst) ++ [p.1] = (done ++ [p]).map Prod.fst := by simp
    rw [hK] at s1
    have hed2 : ∀ q ∈ done ++ [p], ∀ u ∈ q.2,
        containsNode (processArticle G p) u = true ∧
        (q.1, u) ∈ (processArticle G p).edges := by
      intro q hq u hu
      rcases List.mem_append.mp hq with hq1 | hq2
      · obtain ⟨hc, he⟩ := hed q hq1 u hu
        exact ⟨s4 u hc, s3 _ he⟩
      · rw [List.mem_singleton] at hq2
        subst hq2
        exact s2 u hu
    obtain ⟨r1, r2⟩ := ih (done ++ [p]) (processArticle G p) s1 hed2
    have hL : (done ++ [p]) ++ todo = done ++ p :: todo := by simp
    rw [hL] at r1 r2
    exact ⟨r1, r2⟩

lemma create_network_graph_facts (data : List (String × List String)) :
    GraphInv (data.map Prod.fst) (create_network_graph data) ∧
    (∀ q ∈ data, ∀ u ∈ q.2,
      containsNode (create_network_graph data) u = true ∧
      (q.1, u) ∈ (create_network_graph data).edges) := by
  have hbase : GraphInv (([] : List (String × List String)).map Prod.fst)
      (⟨[], []⟩ : NXDiGraph) := by
    refine ⟨?_, ?_, ?_⟩
    · intro n hn
      simp [containsNode] at hn
    · intro n hn
      simp at hn
    · simp
  have hmain := foldl_processArticle_facts data [] ⟨[], []⟩ hbase (by simp)
  simpa using hmain

/-- Claim C5: after construction, every article key has a node whose final
type attribute is article, every target URL of a key has a node and a
directed edge from the article to it, and the edge list has no duplicate
ordered pairs (duplicate targets yield a single edge). -/
theorem graph_builder_nodes_edges (data : List (String × List String)) :
    (∀ t ∈ data.map Prod.fst,
      nodeType (create_network_graph data) t = some (some "article")) ∧
    (∀ p ∈ data, ∀ u ∈ p.2,
      (nodeType (create_network_graph data) u).isSome = true ∧
      (p.1, u) ∈ (create_network_graph data).edges) ∧
    (create_network_graph data).edges.Nodup := by
  obtain ⟨⟨htype, hkeys, hnodup⟩, hedges⟩ := create_network_graph_facts data
  refine ⟨?_, ?_, hnodup⟩
  · intro t htk
    rw [htype t (hkeys t htk), if_pos htk]
  · intro p hp u hu
    obtain ⟨hc, he⟩ := hedges p hp u hu
    rw [← containsNode_eq_isSome]
    exact ⟨hc, he⟩

/-- Witness for C5 at the mapping with one article and one target URL. -/
theorem graph_builder_nodes_edges_witness :
    nodeType (create_network_graph [("A", ["u"])]) "A" = some (some "article") ∧
    (nodeType (create_network_graph [("A", ["u"])]) "u").isSome = true ∧
    ("A", "u") ∈ (create_network_graph [("A", ["u"])]).edges ∧
    (create_network_graph [("A", ["u"])]).edges.Nodup := by
  obtain ⟨h1, h2, h3⟩ := graph_builder_nodes_edges [("A", ["u"])]
  obtain ⟨h4, h5⟩ := h2 ("A", ["u"]) (by decide) "u" (by decide)
  exact ⟨h1 "A" (by decide), h4, h5, h3⟩

/-- Claim C10: a node of the finished graph carries type article exactly when
it is a key of the input mapping, and type url otherwise; in particular an
earlier url node is overwritten to article when its name is a later key. -/
theorem node_type_characterization (data : List (String × List String)) (n : String)
    (h : containsNode (create_network_graph data) n = true) :
    nodeType (create_network_graph data) n =
      some (some (if n ∈ data.map Prod.fst then "article" else "url")) := by
  obtain ⟨⟨htype, -, -⟩, -⟩ := create_network_graph_facts data
  exact htype n h

/-- Witness for C10: the string u occurs as an earlier target URL and as a
later article key, and its final node type is article. -/
theorem node_type_characterization_witness :
    nodeType (create_network_graph [("A", ["u"]), ("u", [])]) "u" =
      some (some (if "u" ∈ [("A", ["u"]), ("u", [])].map Prod.fst
        then "article" else "url")) :=
  node_type_characterization [("A", ["u"]), ("u", [])] "u" (by decide)

/- ### Injectivity of the decimal id rendering "A" ++ Nat.repr i -/

lemma toDigitsCore_eq_digits :
    ∀ (n f : Nat) (ds : List Char), n ≤ f →
      Nat.toDigitsCore 10 (f + 1) n ds =
        (if n = 0 then [Char.ofNat 48]
          else ((Nat.digits 10 n).map Nat.digitChar).reverse) ++ ds := by
  intro n
  induction n using Nat.strong_induction_on with
  | _ n ih =>
    intro f ds hf
    rw [Nat.toDigitsCore]
    by_cases h0 : n / 10 = 0
    · rw [if_pos h0]
      by_cases hn0 : n = 0
      · subst hn0
        rfl
      · rw [if_neg hn0]
        have hlt : n < 10 := (Nat.div_eq_zero_iff (by norm_num)).mp h0
        have hdig : Nat.digits 10 n = [n] := by
          rw [Nat.digits_def' (by norm_num : (1 : ℕ) < 10) (Nat.pos_of_ne_zero hn0),
            Nat.mod_eq_of_lt hlt, h0, Nat.digits_zero]
        rw [hdig]
        simp [Nat.mod_eq_of_lt hlt]
    · rw [if_neg h0]
      have hn0 : n ≠ 0 := by
        intro h
        subst h
        simp at h0
      have hlt : n / 10 < n := Nat.div_lt_self (Nat.pos_of_ne_zero hn0) (by norm_num)
      obtain ⟨f2, rfl⟩ : ∃ f2, f = f2 + 1 := by
        cases f with
        | zero => omega
        | succ f2 => exact ⟨f2, rfl⟩
      rw [ih (n / 10) hlt f2 (Nat.digitChar (n % 10) :: ds) (by omega), if_neg h0,
        if_neg hn0, Nat.digits_def' (by norm_num : (1 : ℕ) < 10) (Nat.pos_of_ne_zero hn0)]
      simp [List.reverse_cons]

lemma repr_data_eq (n : Nat) :
    (Nat.repr n).data = (if n = 0 then [Char.ofNat 48]
      else ((Nat.digits 10 n).map Nat.digitChar).reverse) := by
  rw [Nat.repr, Nat.toDigits, toDigitsCore_eq_digits n n [] (le_refl n)]
  simp [List.asString]

lemma digitChar_inj_fin : ∀ a b : Fin 10, Nat.digitChar a.val = Nat.digitChar b.val → a = b := by
  decide

lemma map_digitChar_inj :
    ∀ (l1 l2 : List Nat), (∀ d ∈ l1, d < 10) → (∀ d ∈ l2, d < 10) →
      l1.map Nat.digitChar = l2.map Nat.digitChar → l1 = l2 := by
  intro l1
  induction l1 with
  | nil =>
    intro l2 _ _ h
    cases l2 with
    | nil => rfl
    | cons b l2 => simp at h
  | cons a l1 ih =>
    intro l2 h1 h2 h
    cases l2 with
    | nil => simp at h
    | cons b l2 =>
      simp only [List.map_cons, List.cons.injEq] at h
      obtain ⟨hab, hrest⟩ := h
      have ha : a < 10 := h1 a (by simp)
      have hb : b < 10 := h2 b (by simp)
      have hfin : (⟨a, ha⟩ : Fin 10) = ⟨b, hb⟩ := digitChar_inj_fin _ _ hab
      have hab2 : a = b := congrArg Fin.val hfin
      rw [hab2, ih l2 (fun d hd => h1 d (by simp [hd])) (fun d hd => h2 d (by simp [hd])) hrest]

lemma digits_bounded (n : Nat) : ∀ d ∈ Nat.digits 10 n, d < 10 :=
  fun d hd => Nat.digits_lt_base (by norm_num) hd

lemma zero_chars_digits {n : Nat} (hn : n ≠ 0)
    (h : [Char.ofNat 48] = ((Nat.digits 10 n).map Nat.digitChar).reverse) : False := by
  have h2 : (Nat.digits 10 n).map Nat.digitChar = [Char.ofNat 48] := by
    rw [← List.reverse_inj]
    simp [← h]
  have h3 : Nat.digits 10 n = [0] := by
    apply map_digitChar_inj _ _ (digits_bounded n) (by simp)
    rw [h2]
    rfl
  have h4 := Nat.ofDigits_digits 10 n
  rw [h3] at h4
  simp [Nat.ofDigits] at h4
  exact hn h4.symm

lemma repr_injective : ∀ m n : Nat, (Nat.repr m).data = (Nat.repr n).data → m = n := by
  intro m n h
  rw [repr_data_eq, repr_data_eq] at h
  by_cases hm : m = 0 <;> by_cases hn : n = 0
  · rw [hm, hn]
  · rw [if_pos hm, if_neg hn] at h
    exact absurd (zero_chars_digits hn h) (fun hf => hf)
  · rw [if_neg hm, if_pos hn] at h
    exact absurd (zero_chars_digits hm h.symm) (fun hf => hf)
  · rw [if_neg hm, if_neg hn, List.reverse_inj] at h
    have hdig := map_digitChar_inj _ _ (digits_bounded m) (digits_bounded n) h
    have h1 := Nat.ofDigits_digits 10 m
    rw [hdig, Nat.ofDigits_digits] at h1
    exact h1.symm

lemma a_id_injective : Function.Injective (fun i : Nat => "A" ++ Nat.repr i) := by
  intro i j h
  apply repr_injective
  have hdata := congrArg String.data h
  simpa using hdata

/- ### article_ids structure (C4) -/

lemma article_ids_fst (il : List (String × List String)) :
    (article_ids il).map Prod.fst = il.map Prod.fst := by
  rw [article_ids, List.map_map]
  have heq : (Prod.fst ∘ fun p : ℕ × (String × List String) => (p.2.1, "A" ++ Nat.repr p.1))
      = Prod.fst ∘ (Prod.snd : ℕ × (String × List String) → String × List String) := rfl
  rw [heq, ← List.map_map, List.enum_map_snd]

lemma article_ids_length (il : List (String × List String)) :
    (article_ids il).length = il.length := by
  simp [article_ids]

lemma article_ids_snd (il : List (String × List String)) :
    (article_ids il).map Prod.snd =
      (List.range il.length).map fun i => "A" ++ Nat.repr i := by
  rw [article_ids, List.map_map]
  have heq : (Prod.snd ∘ fun p : ℕ × (String × List String) => (p.2.1, "A" ++ Nat.repr p.1))
      = (fun i => "A" ++ Nat.repr i) ∘ (Prod.fst : ℕ × (String × List String) → ℕ) := rfl
  rw [heq, ← List.map_map, List.enum_map_fst]

lemma article_ids_keys_only (il : List (String × List String)) :
    article_ids il = (il.map Prod.fst).enum.map fun p => (p.2, "A" ++ Nat.repr p.1) := by
  rw [article_ids, List.enum_map, List.map_map]
  rfl

/-- Claim C4: article_ids assigns to each key exactly one identifier in
enumeration order (the key at index i gets "A" ++ repr i, so the first key
gets A0), the identifiers are pairwise distinct, and the assignment depends
only on the key sequence, so re-running with the same key order reproduces
the same identifier for the same title. -/
theorem article_ids_assignment (il : List (String × List String)) :
    ((article_ids il).map Prod.fst = il.map Prod.fst) ∧
    (∀ i (h : i < il.length),
      (article_ids il)[i]? = some ((il.get ⟨i, h⟩).1, "A" ++ Nat.repr i)) ∧
    ((article_ids il).map Prod.snd).Nodup ∧
    (∀ il2 : List (String × List String),
      il.map Prod.fst = il2.map Prod.fst → article_ids il = article_ids il2) := by
  refine ⟨article_ids_fst il, ?_, ?_, ?_⟩
  · intro i h
    rw [article_ids, List.getElem?_map]
    have h2 : i < il.enum.length := by simpa using h
    rw [List.getElem?_eq_getElem h2, List.getElem_enum]
    rfl
  · rw [article_ids_snd]
    exact List.Nodup.map a_id_injective (List.nodup_range _)
  · intro il2 hk
    rw [article_ids_keys_only, article_ids_keys_only, hk]

/-- Witness for C4 at a two-key mapping: the first key gets id A0, ids are
distinct, and a mapping with the same keys but other values gets the same
assignment. -/
theorem article_ids_assignment_witness :
    (article_ids [("T", []), ("U", [])])[0]? = some ("T", "A" ++ Nat.repr 0) ∧
    ((article_ids [("T", []), ("U", [])]).map Prod.snd).Nodup ∧
    article_ids [("T", []), ("U", [])] = article_ids [("T", ["x"]), ("U", [])] := by
  obtain ⟨h1, h2, h3, h4⟩ := article_ids_assignment [("T", []), ("U", [])]
  exact ⟨h2 0 (by decide), h3, h4 [("T", ["x"]), ("U", [])] (by decide)⟩

/- ### The diagram string as header plus concatenated edge statements -/

lemma strConcat_append (l1 l2 : List String) :
    strConcat (l1 ++ l2) = strConcat l1 ++ strConcat l2 := by
  induction l1 with
  | nil =>
    show strConcat l2 = "" ++ strConcat l2
    rfl
  | cons s l1 ih =>
    show s ++ strConcat (l1 ++ l2) = (s ++ strConcat l1) ++ strConcat l2
    rw [ih, String.append_assoc]

lemma inner_fold_eq (ids mapping : List (String × String)) (sid title : String) :
    ∀ (links : List String) (acc : String),
      links.foldl (fun acc2 link =>
        match dictGet ((dictGet link mapping).getD "Unknown Article") ids with
        | some target_id =>
          acc2 ++ mermaidEdgeLine sid title target_id
            ((dictGet link mapping).getD "Unknown Article")
        | none => acc2) acc
      = acc ++ strConcat ((links.filter fun link =>
          (dictGet ((dictGet link mapping).getD "Unknown Article") ids).isSome).map
          fun link => mermaidEdgeLine sid title
            ((dictGet ((dictGet link mapping).getD "Unknown Article") ids).getD "")
            ((dictGet link mapping).getD "Unknown Article")) := by
  intro links
  induction links with
  | nil =>
    intro acc
    simp [strConcat, String.append_empty]
  | cons link links ih =>
    intro acc
    rw [List.foldl_cons, List.filter_cons]
    cases hlt : dictGet ((dictGet link mapping).getD "Unknown Article") ids with
    | none =>
      simp only [hlt, Option.isSome_none, Bool.false_eq_true, if_false]
      exact ih acc
    | some tid =>
      simp only [hlt, Option.isSome_some, if_true, List.map_cons, Option.getD_some]
      rw [ih, String.append_assoc]
      rfl

lemma outer_fold_eq (ids mapping : List (String × String)) :
    ∀ (il0 : List (String × List String)) (acc : String),
      il0.foldl (fun acc p =>
        p.2.foldl (fun acc2 link =>
          match dictGet ((dictGet link mapping).getD "Unknown Article") ids with
          | some target_id =>
            acc2 ++ mermaidEdgeLine ((dictGet p.1 ids).getD "") p.1 target_id
              ((dictGet link mapping).getD "Unknown Article")
          | none => acc2) acc) acc
      = acc ++ strConcat ((il0.flatMap fun p =>
          (p.2.filter fun link =>
            (dictGet ((dictGet link mapping).getD "Unknown Article") ids).isSome).map
            fun link => (p.1, link)).map
          fun e => mermaidEdgeLine ((dictGet e.1 ids).getD "") e.1
            ((dictGet ((dictGet e.2 mapping).getD "Unknown Article") ids).getD "")
            ((dictGet e.2 mapping).getD "Unknown Article")) := by
  intro il0
  induction il0 with
  | nil =>
    intro acc
    simp [strConcat, String.append_empty]
  | cons p il0 ih =>
    intro acc
    rw [List.foldl_cons]
    rw [inner_fold_eq, ih]
    simp [List.flatMap_cons, List.map_append, List.map_map, strConcat_append,
      String.append_assoc, Function.comp_def]

lemma generate_mermaid_eq (il : List (String × List String))
    (mapping : List (String × String)) :
    generate_mermaid_diagram il mapping =
      "graph TD;\n" ++ strConcat ((mermaidEdges il mapping).map (renderEdge il mapping)) :=
  outer_fold_eq (article_ids il) mapping il "graph TD;\n"

/-- Counterexample to claim C2 as stated: when "Unknown Article" is itself a
key, the generated diagram contains an edge statement for a link that
LinkToTitle does not map at all — the default resolution, not the mapping,
produced its target. -/
theorem diagram_edge_unresolved_counterexample :
    generate_mermaid_diagram [("Unknown Article", ["x"])] [] =
      "graph TD;\n  A0[\"Unknown Article\"] --> A0[\"Unknown Article\"];\n" ∧
    ("Unknown Article", "x") ∈ mermaidEdges [("Unknown Article", ["x"])] [] ∧
    dictGet "x" ([] : List (String × String)) = none := by
  refine ⟨rfl, by decide, rfl⟩

/-- Claim C2 (amended): the diagram is the header followed by the rendered
edge statements of mermaidEdges, and every such edge statement comes from a
pair (title, link) with link recorded in ArticleLinks under title and whose
resolved title — LinkToTitle of the link when present, the default
"Unknown Article" otherwise — is itself a key of ArticleLinks. -/
theorem diagram_edges_resolve (il : List (String × List String))
    (mapping : List (String × String)) :
    generate_mermaid_diagram il mapping =
      "graph TD;\n" ++ strConcat ((mermaidEdges il mapping).map (renderEdge il mapping)) ∧
    ∀ e ∈ mermaidEdges il mapping,
      (∃ ls, (e.1, ls) ∈ il ∧ e.2 ∈ ls) ∧
      resolveLink mapping e.2 ∈ il.map Prod.fst := by
  refine ⟨generate_mermaid_eq il mapping, ?_⟩
  intro e he
  rw [mermaidEdges, List.mem_flatMap] at he
  obtain ⟨p, hp, hin⟩ := he
  rw [List.mem_map] at hin
  obtain ⟨link, hlink, heq⟩ := hin
  rw [List.mem_filter] at hlink
  obtain ⟨hmem, hcond⟩ := hlink
  subst heq
  constructor
  · refine ⟨p.2, ?_, hmem⟩
    simpa using hp
  · have hk := (dictGet_isSome_iff _ _).mp hcond
    rw [article_ids_fst] at hk
    exact hk

/-- Witness for the amended C2 at a two-article mapping with one resolvable
link. -/
theorem diagram_edges_resolve_witness :
    (∃ ls, ("B", ls) ∈ [("A", ([] : List String)), ("B", ["u"])] ∧ "u" ∈ ls) ∧
    resolveLink [("u", "A")] "u" ∈ [("A", ([] : List String)), ("B", ["u"])].map Prod.fst :=
  (diagram_edges_resolve [("A", []), ("B", ["u"])] [("u", "A")]).2 ("B", "u") (by decide)

/-- Claim C9: when some article is literally titled "Unknown Article", a link
that LinkToTitle does not resolve is not dropped: it resolves to the default
title "Unknown Article", its edge is emitted, and the emitted statement
points at the identifier assigned to that article. -/
theorem unknown_article_redirect (il : List (String × List String))
    (mapping : List (String × String))
    (hua : "Unknown Article" ∈ il.map Prod.fst) :
    ∀ p ∈ il, ∀ l ∈ p.2, dictGet l mapping = none →
      resolveLink mapping l = "Unknown Article" ∧
      (p.1, l) ∈ mermaidEdges il mapping ∧
      ∃ tid, dictGet "Unknown Article" (article_ids il) = some tid ∧
        renderEdge il mapping (p.1, l) =
          mermaidEdgeLine ((dictGet p.1 (article_ids il)).getD "") p.1 tid
            "Unknown Article" := by
  intro p hp l hl hnone
  have hres : resolveLink mapping l = "Unknown Article" := by
    rw [resolveLink, hnone]
    rfl
  have hids : "Unknown Article" ∈ (article_ids il).map Prod.fst := by
    rw [article_ids_fst]
    exact hua
  have hsome : (dictGet "Unknown Article" (article_ids il)).isSome = true :=
    (dictGet_isSome_iff _ _).mpr hids
  obtain ⟨tid, htid⟩ := Option.isSome_iff_exists.mp hsome
  refine ⟨hres, ?_, tid, htid, ?_⟩
  · rw [mermaidEdges, List.mem_flatMap]
    refine ⟨p, hp, ?_⟩
    rw [List.mem_map]
    refine ⟨l, ?_, rfl⟩
    rw [List.mem_filter]
    refine ⟨hl, ?_⟩
    rw [hres, htid]
    rfl
  · rw [renderEdge]
    simp only [hres, htid, Option.getD_some]

/-- Witness for C9 at a one-article mapping titled "Unknown Article" with an
unresolvable link. -/
theorem unknown_article_redirect_witness :
    resolveLink [] "x" = "Unknown Article" ∧
    ("Unknown Article", "x") ∈ mermaidEdges [("Unknown Article", ["x"])] [] ∧
    ∃ tid, dictGet "Unknown Article" (article_ids [("Unknown Article", ["x"])]) = some tid ∧
      renderEdge [("Unknown Article", ["x"])] [] ("Unknown Article", "x") =
        mermaidEdgeLine
          ((dictGet "Unknown Article" (article_ids [("Unknown Article", ["x"])])).getD "")
          "Unknown Article" tid "Unknown Article" :=
  unknown_article_redirect [("Unknown Article", ["x"])] [] (by decide)
    ("Unknown Article", ["x"]) (by decide) "x" (by decide) rfl
